import Mathlib

/-!
# Verification of `src/frontend/src/utils/currencyFormatter.ts`

Shallow embedding of the currency-formatting module. JavaScript number
values are embedded as exact rationals (`ℚ`): every finite IEEE-754 double
denotes an exact rational, and all arithmetic the module performs on the
amount (`Math.abs`, the rounding inside `Number.prototype.toFixed`) is
exact decimal rounding of that rational value. Strings are Lean `String`s.

The three record literals `CURRENCY_SYMBOLS`, `CURRENCY_POSITIONS`,
`DECIMAL_PLACES` become lookup functions returning `Option` (a missing key
is JavaScript `undefined`). JavaScript `||` on a string-or-undefined value
and `??` on a number-or-undefined value are modelled by `jsOrString` and
`Option.getD` respectively (`||` also replaces the empty string, which is
falsy; `??` keeps `0`).

Two boundaries of the embedding are made explicit rather than silently
assumed. First, bracket lookup on a JavaScript object literal also finds
the members inherited from `Object.prototype` (`toString`, `constructor`,
…), which are truthy and non-nullish and so defeat the `||` and `??`
fallbacks; the `JsProp` type and `jsGet` model this, statements about
unrecognized codes either exclude those member names or use the
prototype-aware lookup, and the divergence this causes is recorded at the
affected statements. Second, `Number.prototype.toFixed` switches to
`ToString`'s exponential notation at `10 ^ 21`; that branch depends on
IEEE-754 shortest-round-trip printing and is outside the rational
embedding, so statements that assert fixed-notation output carry the bound
`|amount| < 10 ^ 21`.
-/

/-- `CURRENCY_SYMBOLS` record from the source (key → symbol), as a lookup
function over the literal's own properties; `none` is an absent own key.
Lookup through the prototype chain, which the running program also
performs, is modelled separately by `jsGet`. -/
def CURRENCY_SYMBOLS (c : String) : Option String :=
  if c = "USD" then some "$"
  else if c = "EUR" then some "€"
  else if c = "GBP" then some "£"
  else if c = "JPY" then some "¥"
  else if c = "CAD" then some "C$"
  else if c = "AUD" then some "A$"
  else if c = "CHF" then some "CHF"
  else if c = "CNY" then some "¥"
  else if c = "INR" then some "₹"
  else if c = "MXN" then some "$"
  else if c = "BRL" then some "R$"
  else if c = "ZAR" then some "R"
  else none

/-- `CURRENCY_POSITIONS` record from the source (key → "before" | "after"),
own properties only; see `jsGet` for the prototype chain. -/
def CURRENCY_POSITIONS (c : String) : Option String :=
  if c = "USD" then some "before"
  else if c = "EUR" then some "after"
  else if c = "GBP" then some "before"
  else if c = "JPY" then some "before"
  else if c = "CAD" then some "before"
  else if c = "AUD" then some "before"
  else if c = "CHF" then some "after"
  else if c = "CNY" then some "before"
  else if c = "INR" then some "before"
  else if c = "MXN" then some "before"
  else if c = "BRL" then some "before"
  else if c = "ZAR" then some "before"
  else none

/-- `DECIMAL_PLACES` record from the source (key → decimal count), own
properties only; see `jsGet` for the prototype chain. -/
def DECIMAL_PLACES (c : String) : Option Nat :=
  if c = "USD" then some 2
  else if c = "EUR" then some 2
  else if c = "GBP" then some 2
  else if c = "JPY" then some 0
  else if c = "CAD" then some 2
  else if c = "AUD" then some 2
  else if c = "CHF" then some 2
  else if c = "CNY" then some 2
  else if c = "INR" then some 2
  else if c = "MXN" then some 2
  else if c = "BRL" then some 2
  else if c = "ZAR" then some 2
  else none

/-- The keys of the three records above (they share one key set): the
recognized currency codes. -/
def supportedCodes : List String :=
  ["USD", "EUR", "GBP", "JPY", "CAD", "AUD", "CHF", "CNY", "INR", "MXN", "BRL", "ZAR"]

/-- JavaScript `v || d` for `v` a string or `undefined`: `undefined` and the
empty string (both falsy) are replaced by the default. -/
def jsOrString (v : Option String) (d : String) : String :=
  match v with
  | none => d
  | some s => if s = "" then d else s

/-- Character of a single decimal digit `k < 10` (code point `48 + k`). -/
def digitChar (k : Nat) : Char :=
  Char.ofNat (48 + k)

/-- Decimal digits of a natural number, most significant first, produced by
repeated division by 10 (the standard integer-to-decimal-string algorithm,
which is what JavaScript `ToString` does on integral values). Structural
recursion on a fuel argument so that the kernel can evaluate it; `natDigits`
supplies enough fuel. -/
def natDigitsAux : Nat → Nat → List Char
  | 0, _ => []
  | f + 1, n =>
    if n < 10 then [digitChar n]
    else natDigitsAux f (n / 10) ++ [digitChar (n % 10)]

/-- Decimal digit string of a natural number, most significant first. -/
def natDigits (n : Nat) : List Char :=
  natDigitsAux (n + 1) n

/-- Decimal rendering of a natural number as a string. -/
def natStr (n : Nat) : String :=
  ⟨natDigits n⟩

/-- Left-pad a string with `'0'` to length `d` (used for the fractional
block of `toFixed`, whose value is `< 10^d` and so has at most `d` digits). -/
def padZeros (d : Nat) (s : String) : String :=
  ⟨List.replicate (d - s.length) '0' ++ s.data⟩

/-- `Number.prototype.toFixed(d)` (ECMA-262) on a nonnegative exact value
`x < 10^21`: let `n` be the integer for which `n / 10^d - x` is closest to
zero, the larger `n` at a tie (for nonnegative `x` this is rounding
half-away-from-zero), then print the digits of `n` with a `.` before the
last `d` of them (no point when `d = 0`). Splitting `n` as
`n / 10^d . n % 10^d` (the fractional block zero-padded to `d` digits) is
exactly that digit string. For `x ≥ 10^21` the ECMAScript algorithm
instead returns `ToString(x)` in exponential notation; that branch depends
on IEEE-754 shortest-round-trip printing and is outside this rational
embedding, so statements that assert fixed-notation output carry the bound
`x < 10^21` explicitly. The module only applies `toFixed` to
`Math.abs(amount)`, which is nonnegative. -/
def toFixed (x : ℚ) (d : Nat) : String :=
  let n : Nat := (⌊x * 10 ^ d + 1 / 2⌋).toNat
  if d = 0 then natStr n
  else natStr (n / 10 ^ d) ++ "." ++ padZeros d (natStr (n % 10 ^ d))

/-- `formatCurrency` from the source, line for line: resolve symbol,
position and decimal count (with `|| "$"`, `|| "before"`, `?? 2`
fallbacks), render `Math.abs(amount).toFixed(decimals)`, prefix `-` for a
strictly negative amount, and place the symbol before the numeral, or
after it separated by one space. -/
def formatCurrency (amount : ℚ) (currency : String := "USD") : String :=
  let symbol := jsOrString (CURRENCY_SYMBOLS currency) "$"
  let position := jsOrString (CURRENCY_POSITIONS currency) "before"
  let decimals := (DECIMAL_PLACES currency).getD 2
  let formattedAmount := toFixed |amount| decimals
  let isNegative := if amount < 0 then "-" else ""
  if position = "before" then isNegative ++ symbol ++ formattedAmount
  else isNegative ++ formattedAmount ++ " " ++ symbol

/-- `getCurrencySymbol` from the source: `CURRENCY_SYMBOLS[currency] || "$"`. -/
def getCurrencySymbol (currency : String := "USD") : String :=
  jsOrString (CURRENCY_SYMBOLS currency) "$"

/-- The resolved symbol of a code (the `symbol` local of `formatCurrency`). -/
def resolvedSymbol (c : String) : String :=
  jsOrString (CURRENCY_SYMBOLS c) "$"

/-- The resolved position of a code (the `position` local of `formatCurrency`). -/
def resolvedPosition (c : String) : String :=
  jsOrString (CURRENCY_POSITIONS c) "before"

/-- The resolved decimal count of a code (the `decimals` local of
`formatCurrency`). -/
def resolvedDecimals (c : String) : Nat :=
  (DECIMAL_PLACES c).getD 2

/-- The sign prefix of `formatCurrency` (its `isNegative` local). -/
def signStr (a : ℚ) : String :=
  if a < 0 then "-" else ""

/-- The ten decimal digit characters. -/
def digitChars : List Char :=
  ['0', '1', '2', '3', '4', '5', '6', '7', '8', '9']

/-- Number of positions (`0 … s.length`) at which `p` occurs in `s` as a
contiguous substring. -/
def countOccs (p : List Char) : List Char → Nat
  | [] => if p = [] then 1 else 0
  | c :: rest => (if p.isPrefixOf (c :: rest) then 1 else 0) + countOccs p rest

/-- `Number.prototype.toFixed` as a fallible operation: ECMA-262 throws a
`RangeError` when the requested digit count exceeds 100 (a negative count,
the other throwing case, cannot arise here since the table holds natural
numbers). -/
def toFixedE (x : ℚ) (d : Nat) : Except String String :=
  if 100 < d then Except.error "RangeError" else Except.ok (toFixed x d)

/-- `formatCurrency` with its only potentially-throwing step (`toFixed`)
made explicit in `Except`; used to state that no failure ever surfaces. -/
def formatCurrencyE (amount : ℚ) (currency : String := "USD") : Except String String :=
  match toFixedE |amount| ((DECIMAL_PLACES currency).getD 2) with
  | Except.error e => Except.error e
  | Except.ok formattedAmount =>
    let symbol := jsOrString (CURRENCY_SYMBOLS currency) "$"
    let position := jsOrString (CURRENCY_POSITIONS currency) "before"
    let isNegative := if amount < 0 then "-" else ""
    Except.ok (if position = "before" then isNegative ++ symbol ++ formattedAmount
      else isNegative ++ formattedAmount ++ " " ++ symbol)

/-- The property names that every plain object literal inherits from
`Object.prototype`: indexing one of the three tables with such a name
finds the inherited member (a function, or the prototype object itself
for `__proto__`), not `undefined`. -/
def protoKeys : List String :=
  ["constructor", "hasOwnProperty", "isPrototypeOf", "propertyIsEnumerable",
   "toLocaleString", "toString", "valueOf", "__proto__",
   "__defineGetter__", "__defineSetter__", "__lookupGetter__", "__lookupSetter__"]

/-- A value produced by bracket lookup on one of the tables, prototype
chain included: an own property's value, or an inherited
`Object.prototype` member (tagged by its name). An inherited member is an
object, not a string; it is truthy and non-nullish. -/
inductive JsProp (α : Type) where
  | own : α → JsProp α
  | protoMember : String → JsProp α
  deriving DecidableEq

/-- Whether a looked-up value is an own value (for the symbol table: a
string) rather than an inherited object. -/
def JsProp.isString {α : Type} : JsProp α → Bool
  | JsProp.own _ => true
  | JsProp.protoMember _ => false

/-- JS bracket lookup `table[key]` including the prototype chain. -/
def jsGet {α : Type} (table : String → Option α) (key : String) : Option (JsProp α) :=
  match table key with
  | some v => some (JsProp.own v)
  | none => if key ∈ protoKeys then some (JsProp.protoMember key) else none

/-- JavaScript `v || d` over a prototype-aware lookup result: `undefined`
and the empty string are falsy and replaced by the default; an inherited
member is truthy and kept. -/
def jsOrProp (v : Option (JsProp String)) (d : String) : JsProp String :=
  match v with
  | none => JsProp.own d
  | some (JsProp.own s) => if s = "" then JsProp.own d else JsProp.own s
  | some (JsProp.protoMember k) => JsProp.protoMember k

/-- JavaScript `v ?? d` over a prototype-aware lookup result: only
`undefined` is nullish; an inherited member is kept. -/
def jsNullishProp {α : Type} (v : Option (JsProp α)) (d : α) : JsProp α :=
  match v with
  | none => JsProp.own d
  | some p => p

/-- `getCurrencySymbol` over the prototype-aware lookup: the runtime value
the program actually returns, which at an inherited member name is the
member itself rather than a string. -/
def getCurrencySymbolJs (currency : String := "USD") : JsProp String :=
  jsOrProp (jsGet CURRENCY_SYMBOLS currency) "$"

/-- The `position` local of `formatCurrency` over the prototype-aware
lookup. -/
def resolvedPositionJs (c : String) : JsProp String :=
  jsOrProp (jsGet CURRENCY_POSITIONS c) "before"

/-- The `decimals` local of `formatCurrency` over the prototype-aware
lookup. -/
def resolvedDecimalsJs (c : String) : JsProp Nat :=
  jsNullishProp (jsGet DECIMAL_PLACES c) 2

/-! ## Basic lemmas about the decimal renderer -/

lemma digitChar_mem_digitChars {k : Nat} (hk : k < 10) : digitChar k ∈ digitChars := by
  interval_cases k <;> decide

lemma natDigitsAux_congr : ∀ f₁ f₂ n, n < f₁ → n < f₂ →
    natDigitsAux f₁ n = natDigitsAux f₂ n := by
  intro f₁
  induction f₁ with
  | zero => intro f₂ n h _; omega
  | succ f ih =>
    intro f₂ n h₁ h₂
    cases f₂ with
    | zero => omega
    | succ g =>
      simp only [natDigitsAux]
      by_cases h : n < 10
      · simp [h]
      · have hdiv : n / 10 < n := Nat.div_lt_self (by omega) (by norm_num)
        simp only [h, if_false]
        exact congrArg (· ++ [digitChar (n % 10)]) (ih g (n / 10) (by omega) (by omega))

/-- Unfolding rule for `natDigits`, independent of the fuel. -/
lemma natDigits_eq (n : Nat) :
    natDigits n = if n < 10 then [digitChar n]
      else natDigits (n / 10) ++ [digitChar (n % 10)] := by
  by_cases h : n < 10
  · rw [if_pos h]
    unfold natDigits
    simp only [natDigitsAux]
    simp [h]
  · have hdiv : n / 10 < n := Nat.div_lt_self (by omega) (by norm_num)
    have step : natDigits n = natDigitsAux n (n / 10) ++ [digitChar (n % 10)] := by
      unfold natDigits
      simp only [natDigitsAux]
      simp [h]
    rw [if_neg h, step, natDigitsAux_congr n (n / 10 + 1) (n / 10) hdiv (by omega)]
    rfl

/-- Every character produced by `natDigits` is a decimal digit. -/
lemma mem_natDigits {n : Nat} {ch : Char} (h : ch ∈ natDigits n) : ch ∈ digitChars := by
  induction n using Nat.strong_induction_on with
  | _ n ih =>
    rw [natDigits_eq] at h
    by_cases h10 : n < 10
    · simp [h10] at h
      subst h
      exact digitChar_mem_digitChars h10
    · simp [h10] at h
      rcases h with h | h
      · exact ih (n / 10) (Nat.div_lt_self (by omega) (by norm_num)) h
      · subst h
        exact digitChar_mem_digitChars (Nat.mod_lt _ (by norm_num))

lemma natDigits_ne_nil (n : Nat) : natDigits n ≠ [] := by
  rw [natDigits_eq]
  by_cases h : n < 10 <;> simp [h]

/-- A number below `10 ^ (d + 1)` has at most `d + 1` decimal digits. -/
lemma natDigits_length_le : ∀ (d n : Nat), n < 10 ^ (d + 1) → (natDigits n).length ≤ d + 1 := by
  intro d
  induction d with
  | zero =>
    intro n h
    rw [natDigits_eq]
    norm_num at h
    simp [h]
  | succ d ih =>
    intro n h
    rw [natDigits_eq]
    by_cases h10 : n < 10
    · simp [h10]
    · have hdivlt : n / 10 < 10 ^ (d + 1) := by
        rw [Nat.div_lt_iff_lt_mul (by norm_num : 0 < 10)]
        calc n < 10 ^ (d + 1 + 1) := h
          _ = 10 ^ (d + 1) * 10 := by ring
      have := ih (n / 10) hdivlt
      simp only [h10, if_false, List.length_append, List.length_cons, List.length_nil]
      omega

example : natStr 300 = "300" := by decide

/-! ## Lemmas about `toFixed` -/

lemma natStr_data (n : Nat) : (natStr n).data = natDigits n := rfl

lemma padZeros_data (d : Nat) (s : String) :
    (padZeros d s).data = List.replicate (d - s.length) '0' ++ s.data := rfl

/-- Evaluate `toFixed` once the rounded integer is known. -/
lemma toFixed_eval (x : ℚ) (d m : Nat) (h : ⌊x * 10 ^ d + 1 / 2⌋ = (m : ℤ)) :
    toFixed x d =
      if d = 0 then natStr m
      else natStr (m / 10 ^ d) ++ "." ++ padZeros d (natStr (m % 10 ^ d)) := by
  unfold toFixed
  rw [h]
  simp

/-- Every character of a `toFixed` rendering is a digit or the point. -/
lemma mem_toFixed {x : ℚ} {d : Nat} {ch : Char} (h : ch ∈ (toFixed x d).data) :
    ch ∈ digitChars ∨ ch = '.' := by
  unfold toFixed at h
  by_cases hd : d = 0
  · simp only [hd, if_pos rfl] at h
    exact Or.inl (mem_natDigits h)
  · simp only [hd, if_false] at h
    simp only [String.data_append, natStr_data, padZeros_data, List.mem_append] at h
    rcases h with (h | h) | h | h
    · exact Or.inl (mem_natDigits h)
    · right
      simpa using h
    · have h0 : ch = '0' := List.eq_of_mem_replicate h
      rw [h0]
      exact Or.inl (by decide)
    · exact Or.inl (mem_natDigits h)

lemma not_mem_toFixed {ch : Char} (h1 : ch ∉ digitChars) (h2 : ch ≠ '.')
    (x : ℚ) (d : Nat) : ch ∉ (toFixed x d).data := by
  intro hm
  rcases mem_toFixed hm with h | h
  · exact h1 h
  · exact h2 h

lemma padZeros_length {d : Nat} {s : String} (h : s.length ≤ d) :
    (padZeros d s).length = d := by
  have hdata : s.length = s.data.length := rfl
  have hl : (padZeros d s).length = (d - s.length) + s.length := by
    show (List.replicate (d - s.length) '0' ++ s.data).length = (d - s.length) + s.length
    rw [List.length_append, List.length_replicate, hdata]
  omega

/-- For a nonzero decimal count, `toFixed` splits as integer part, point,
and a fractional part of exactly `d` characters, with the point occurring
nowhere else. -/
lemma toFixed_split (x : ℚ) {d : Nat} (hd : d ≠ 0) :
    ∃ ip fp : String,
      toFixed x d = ip ++ "." ++ fp ∧ fp.length = d ∧
      '.' ∉ ip.data ∧ '.' ∉ fp.data ∧ ip.data ≠ [] := by
  obtain ⟨e, rfl⟩ : ∃ e, d = e + 1 := ⟨d - 1, by omega⟩
  refine ⟨natStr ((⌊x * 10 ^ (e + 1) + 1 / 2⌋).toNat / 10 ^ (e + 1)),
    padZeros (e + 1) (natStr ((⌊x * 10 ^ (e + 1) + 1 / 2⌋).toNat % 10 ^ (e + 1))),
    ?_, ?_, ?_, ?_, ?_⟩
  · simp only [toFixed]
    rw [if_neg (by omega : ¬(e + 1 = 0))]
  · apply padZeros_length
    have hlt : (⌊x * 10 ^ (e + 1) + 1 / 2⌋).toNat % 10 ^ (e + 1) < 10 ^ (e + 1) :=
      Nat.mod_lt _ (Nat.pos_pow_of_pos _ (by norm_num))
    exact natDigits_length_le e _ hlt
  · intro hm
    rcases mem_natDigits hm with h
    exact absurd h (by decide)
  · intro hm
    rw [padZeros_data] at hm
    rcases List.mem_append.1 hm with h | h
    · exact absurd (List.eq_of_mem_replicate h) (by decide)
    · exact absurd (mem_natDigits h) (by decide)
  · exact natDigits_ne_nil _

/-! ## Substring occurrence counting -/

/-- A pattern whose head character is absent never occurs. -/
lemma countOccs_eq_zero {hd : Char} {tl : List Char} :
    ∀ {s : List Char}, hd ∉ s → countOccs (hd :: tl) s = 0 := by
  intro s
  induction s with
  | nil => intro _; simp [countOccs]
  | cons c rest ih =>
    intro h
    have hc : ¬(hd == c) := by
      simp only [beq_iff_eq]
      rintro rfl
      exact h (List.mem_cons_self _ _)
    simp only [countOccs, List.isPrefixOf, hc, Bool.false_and, if_false]
    simpa using ih (fun hm => h (List.mem_cons_of_mem _ hm))

/-- A nonempty pattern inserted once, with its head character occurring
nowhere else, occurs exactly once. -/
lemma countOccs_sandwich {hd : Char} {tl l₁ l₂ : List Char}
    (h₁ : hd ∉ l₁) (htl : hd ∉ tl) (h₂ : hd ∉ l₂) :
    countOccs (hd :: tl) (l₁ ++ ((hd :: tl) ++ l₂)) = 1 := by
  induction l₁ with
  | nil =>
    have hnot : hd ∉ tl ++ l₂ := by
      simp only [List.mem_append]
      rintro (h | h)
      · exact htl h
      · exact h₂ h
    simp [countOccs, List.isPrefixOf_iff_prefix, countOccs_eq_zero hnot]
  | cons c rest ih =>
    have hc : ¬(hd == c) := by
      simp only [beq_iff_eq]
      rintro rfl
      exact h₁ (List.mem_cons_self _ _)
    simp only [List.cons_append, countOccs, List.isPrefixOf, hc, Bool.false_and, if_false]
    simpa using ih (fun hm => h₁ (List.mem_cons_of_mem _ hm))


/-! ## Facts about the resolved profile -/

/-- The three lookups all miss when the code is none of the twelve keys. -/
lemma lookups_none {c : String} (h1 : c ≠ "USD") (h2 : c ≠ "EUR") (h3 : c ≠ "GBP")
    (h4 : c ≠ "JPY") (h5 : c ≠ "CAD") (h6 : c ≠ "AUD") (h7 : c ≠ "CHF") (h8 : c ≠ "CNY")
    (h9 : c ≠ "INR") (h10 : c ≠ "MXN") (h11 : c ≠ "BRL") (h12 : c ≠ "ZAR") :
    CURRENCY_SYMBOLS c = none ∧ CURRENCY_POSITIONS c = none ∧ DECIMAL_PLACES c = none := by
  refine ⟨?_, ?_, ?_⟩
  · unfold CURRENCY_SYMBOLS
    rw [if_neg h1, if_neg h2, if_neg h3, if_neg h4, if_neg h5, if_neg h6, if_neg h7,
      if_neg h8, if_neg h9, if_neg h10, if_neg h11, if_neg h12]
  · unfold CURRENCY_POSITIONS
    rw [if_neg h1, if_neg h2, if_neg h3, if_neg h4, if_neg h5, if_neg h6, if_neg h7,
      if_neg h8, if_neg h9, if_neg h10, if_neg h11, if_neg h12]
  · unfold DECIMAL_PLACES
    rw [if_neg h1, if_neg h2, if_neg h3, if_neg h4, if_neg h5, if_neg h6, if_neg h7,
      if_neg h8, if_neg h9, if_neg h10, if_neg h11, if_neg h12]

/-- Case analysis on the resolved profile: for every code (recognized or
not) the resolved symbol, position and decimal count form one of the
eleven distinct profiles of the table (the fallback profile coincides with
the USD/MXN one). -/
lemma profile_cases (c : String) :
    (resolvedSymbol c = "$" ∧ resolvedPosition c = "before" ∧ resolvedDecimals c = 2) ∨
    (resolvedSymbol c = "€" ∧ resolvedPosition c = "after" ∧ resolvedDecimals c = 2) ∨
    (resolvedSymbol c = "£" ∧ resolvedPosition c = "before" ∧ resolvedDecimals c = 2) ∨
    (resolvedSymbol c = "¥" ∧ resolvedPosition c = "before" ∧ resolvedDecimals c = 0) ∨
    (resolvedSymbol c = "C$" ∧ resolvedPosition c = "before" ∧ resolvedDecimals c = 2) ∨
    (resolvedSymbol c = "A$" ∧ resolvedPosition c = "before" ∧ resolvedDecimals c = 2) ∨
    (resolvedSymbol c = "CHF" ∧ resolvedPosition c = "after" ∧ resolvedDecimals c = 2) ∨
    (resolvedSymbol c = "¥" ∧ resolvedPosition c = "before" ∧ resolvedDecimals c = 2) ∨
    (resolvedSymbol c = "₹" ∧ resolvedPosition c = "before" ∧ resolvedDecimals c = 2) ∨
    (resolvedSymbol c = "R$" ∧ resolvedPosition c = "before" ∧ resolvedDecimals c = 2) ∨
    (resolvedSymbol c = "R" ∧ resolvedPosition c = "before" ∧ resolvedDecimals c = 2) := by
  rcases eq_or_ne c "USD" with rfl | h1
  · decide
  rcases eq_or_ne c "EUR" with rfl | h2
  · decide
  rcases eq_or_ne c "GBP" with rfl | h3
  · decide
  rcases eq_or_ne c "JPY" with rfl | h4
  · decide
  rcases eq_or_ne c "CAD" with rfl | h5
  · decide
  rcases eq_or_ne c "AUD" with rfl | h6
  · decide
  rcases eq_or_ne c "CHF" with rfl | h7
  · decide
  rcases eq_or_ne c "CNY" with rfl | h8
  · decide
  rcases eq_or_ne c "INR" with rfl | h9
  · decide
  rcases eq_or_ne c "MXN" with rfl | h10
  · decide
  rcases eq_or_ne c "BRL" with rfl | h11
  · decide
  rcases eq_or_ne c "ZAR" with rfl | h12
  · decide
  obtain ⟨hs, hp, hd⟩ := lookups_none h1 h2 h3 h4 h5 h6 h7 h8 h9 h10 h11 h12
  refine Or.inl ⟨?_, ?_, ?_⟩
  · unfold resolvedSymbol
    rw [hs]
    rfl
  · unfold resolvedPosition
    rw [hp]
    rfl
  · unfold resolvedDecimals
    rw [hd]
    rfl

lemma resolvedPosition_eq (c : String) :
    resolvedPosition c = "before" ∨ resolvedPosition c = "after" := by
  rcases profile_cases c with ⟨_, h, _⟩ | ⟨_, h, _⟩ | ⟨_, h, _⟩ | ⟨_, h, _⟩ | ⟨_, h, _⟩ |
    ⟨_, h, _⟩ | ⟨_, h, _⟩ | ⟨_, h, _⟩ | ⟨_, h, _⟩ | ⟨_, h, _⟩ | ⟨_, h, _⟩ <;>
    rw [h] <;> decide

lemma resolvedDecimals_le (c : String) : resolvedDecimals c ≤ 100 := by
  rcases profile_cases c with ⟨_, _, h⟩ | ⟨_, _, h⟩ | ⟨_, _, h⟩ | ⟨_, _, h⟩ | ⟨_, _, h⟩ |
    ⟨_, _, h⟩ | ⟨_, _, h⟩ | ⟨_, _, h⟩ | ⟨_, _, h⟩ | ⟨_, _, h⟩ | ⟨_, _, h⟩ <;>
    rw [h] <;> decide

lemma dash_not_mem_resolvedSymbol (c : String) : '-' ∉ (resolvedSymbol c).data := by
  rcases profile_cases c with ⟨h, _, _⟩ | ⟨h, _, _⟩ | ⟨h, _, _⟩ | ⟨h, _, _⟩ | ⟨h, _, _⟩ |
    ⟨h, _, _⟩ | ⟨h, _, _⟩ | ⟨h, _, _⟩ | ⟨h, _, _⟩ | ⟨h, _, _⟩ | ⟨h, _, _⟩ <;>
    rw [h] <;> decide

lemma dot_not_mem_resolvedSymbol (c : String) : '.' ∉ (resolvedSymbol c).data := by
  rcases profile_cases c with ⟨h, _, _⟩ | ⟨h, _, _⟩ | ⟨h, _, _⟩ | ⟨h, _, _⟩ | ⟨h, _, _⟩ |
    ⟨h, _, _⟩ | ⟨h, _, _⟩ | ⟨h, _, _⟩ | ⟨h, _, _⟩ | ⟨h, _, _⟩ | ⟨h, _, _⟩ <;>
    rw [h] <;> decide

/-- `formatCurrency` in terms of the named resolvers (definitional). -/
lemma formatCurrency_def (a : ℚ) (c : String) :
    formatCurrency a c =
      if resolvedPosition c = "before"
      then signStr a ++ resolvedSymbol c ++ toFixed |a| (resolvedDecimals c)
      else signStr a ++ toFixed |a| (resolvedDecimals c) ++ " " ++ resolvedSymbol c := rfl

lemma signStr_neg {a : ℚ} (h : a < 0) : signStr a = "-" := if_pos h

lemma signStr_nonneg {a : ℚ} (h : ¬a < 0) : signStr a = "" := if_neg h

lemma mem_signStr {a : ℚ} {ch : Char} (h : ch ∈ (signStr a).data) : ch = '-' := by
  unfold signStr at h
  split_ifs at h
  · simpa using h
  · simp at h

lemma dot_not_mem_toFixed_zero (x : ℚ) : '.' ∉ (toFixed x 0).data := by
  unfold toFixed
  rw [if_pos rfl]
  intro h
  exact absurd (mem_natDigits h) (by decide)

/-- Away from the inherited `Object.prototype` member names, the
prototype-aware symbol lookup agrees with the plain one and always yields
a string. -/
lemma getCurrencySymbolJs_eq {c : String} (hp : c ∉ protoKeys) :
    getCurrencySymbolJs c = JsProp.own (getCurrencySymbol c) := by
  unfold getCurrencySymbolJs getCurrencySymbol jsGet jsOrProp jsOrString
  cases h : CURRENCY_SYMBOLS c with
  | none => simp [hp]
  | some s => by_cases hs : s = "" <;> simp [hs]

/-! ## The claims -/

/-- C2 (amended): a currency code that is absent from the profile table
and is not an inherited `Object.prototype` member name resolves to the
fallback profile (symbol `$`, position before, 2 decimals) for every
amount, and `getCurrencySymbol` falls back to `$` — also through the
prototype-aware lookup; in particular `formatCurrency 3 "ZZZ" = "$3.00"`
and `getCurrencySymbol "ZZZ" = "$"`. At an inherited member name the
program finds the truthy inherited member instead (see the
counterexample). -/
theorem claim_C2 (a : ℚ) (c : String) (hc : c ∉ supportedCodes) (hproto : c ∉ protoKeys) :
    formatCurrency a c = signStr a ++ "$" ++ toFixed |a| 2 ∧
    getCurrencySymbol c = "$" ∧
    getCurrencySymbolJs c = JsProp.own "$" ∧
    formatCurrency 3 "ZZZ" = "$3.00" ∧
    getCurrencySymbol "ZZZ" = "$" := by
  simp only [supportedCodes, List.mem_cons, List.not_mem_nil, or_false, not_or] at hc
  obtain ⟨h1, h2, h3, h4, h5, h6, h7, h8, h9, h10, h11, h12⟩ := hc
  obtain ⟨hs, hpos, hd⟩ := lookups_none h1 h2 h3 h4 h5 h6 h7 h8 h9 h10 h11 h12
  have hsym : getCurrencySymbol c = "$" := by
    unfold getCurrencySymbol
    rw [hs]
    rfl
  refine ⟨?_, hsym, ?_, ?_, ?_⟩
  · rw [formatCurrency_def,
      if_pos (show resolvedPosition c = "before" by unfold resolvedPosition; rw [hpos]; rfl),
      show resolvedSymbol c = "$" by unfold resolvedSymbol; rw [hs]; rfl,
      show resolvedDecimals c = 2 by unfold resolvedDecimals; rw [hd]; rfl]
  · rw [getCurrencySymbolJs_eq hproto, hsym]
  · rw [formatCurrency_def, if_pos (by decide), show resolvedSymbol "ZZZ" = "$" from rfl,
      show resolvedDecimals "ZZZ" = 2 from rfl, toFixed_eval _ _ 300 (by norm_num)]
    decide
  · decide

/-- C2 counterexample to the unamended claim: `"toString"` is absent from
the profile table, yet the prototype-aware lookup resolves it to the
inherited `Object.prototype.toString` member — truthy and non-nullish —
so none of the three fallback resolutions (`$`, `before`, `2`) happens. -/
theorem claim_C2_counterexample :
    "toString" ∉ supportedCodes ∧
    getCurrencySymbolJs "toString" ≠ JsProp.own "$" ∧
    resolvedPositionJs "toString" ≠ JsProp.own "before" ∧
    resolvedDecimalsJs "toString" ≠ JsProp.own 2 := by
  decide

theorem claim_C2_witness :
    formatCurrency 5 "ABC" = signStr 5 ++ "$" ++ toFixed |(5 : ℚ)| 2 ∧
    getCurrencySymbol "ABC" = "$" ∧
    getCurrencySymbolJs "ABC" = JsProp.own "$" ∧
    formatCurrency 3 "ZZZ" = "$3.00" ∧
    getCurrencySymbol "ZZZ" = "$" :=
  claim_C2 5 "ABC" (by decide) (by decide)

/-- C3: for every code and every strictly positive amount, formatting the
negated amount prepends exactly one leading `-` to the formatting of the
positive amount, before everything else, changing no other character. -/
theorem claim_C3 (a : ℚ) (c : String) (ha : 0 < a) :
    formatCurrency (-a) c = "-" ++ formatCurrency a c := by
  rw [formatCurrency_def, formatCurrency_def,
    signStr_neg (by linarith), signStr_nonneg (by linarith), abs_neg]
  split_ifs with h
  · apply String.ext
    simp [String.data_append, show ("" : String).data = [] from rfl]
  · apply String.ext
    simp [String.data_append, show ("" : String).data = [] from rfl]

theorem claim_C3_witness : formatCurrency (-1) "USD" = "-" ++ formatCurrency 1 "USD" :=
  claim_C3 1 "USD" (by norm_num)

/-- C4: with the resolved profile, a `before` position renders sign,
symbol, numeral with no separating space, and an `after` position renders
sign, numeral, one space, symbol; in particular
`formatCurrency 5 "EUR" = "5.00 €"`. -/
theorem claim_C4 (a : ℚ) (c : String) :
    (resolvedPosition c = "before" →
      formatCurrency a c = signStr a ++ resolvedSymbol c ++ toFixed |a| (resolvedDecimals c)) ∧
    (resolvedPosition c = "after" →
      formatCurrency a c =
        signStr a ++ toFixed |a| (resolvedDecimals c) ++ " " ++ resolvedSymbol c) ∧
    formatCurrency 5 "EUR" = "5.00 €" := by
  refine ⟨fun h => ?_, fun h => ?_, ?_⟩
  · rw [formatCurrency_def, if_pos h]
  · rw [formatCurrency_def, if_neg (by rw [h]; decide)]
  · rw [formatCurrency_def, if_neg (by decide), show resolvedSymbol "EUR" = "€" from rfl,
      show resolvedDecimals "EUR" = 2 from rfl, toFixed_eval _ _ 500 (by norm_num)]
    decide

theorem claim_C4_witness :
    formatCurrency 7 "USD" =
      signStr 7 ++ resolvedSymbol "USD" ++ toFixed |(7 : ℚ)| (resolvedDecimals "USD") ∧
    formatCurrency 4 "CHF" =
      signStr 4 ++ toFixed |(4 : ℚ)| (resolvedDecimals "CHF") ++ " " ++ resolvedSymbol "CHF" :=
  ⟨(claim_C4 7 "USD").1 (by decide), (claim_C4 4 "CHF").2.1 (by decide)⟩

/-- C5 (scoped to `|amount| < 10^21`, below `toFixed`'s `ToString`
threshold, where the program renders in fixed notation): the numeral
carries exactly the profile's `decimals` fractional digits: with a zero
decimal count the output has no decimal point at all, and with a nonzero
count the numeral splits as integer part, point, and exactly `decimals`
fractional digits; in particular `formatCurrency 10 "JPY" = "¥10"` and
`formatCurrency 10 "USD" = "$10.00"`. At or above `10^21` the program
instead prints `ToString`'s exponential form (for example `$1e+21`),
which breaks the unscoped property. -/
theorem claim_C5 (a : ℚ) (c : String) (_hsmall : |a| < 10 ^ 21) :
    (resolvedDecimals c = 0 → '.' ∉ (formatCurrency a c).data) ∧
    (resolvedDecimals c ≠ 0 →
      ∃ ip fp : String, toFixed |a| (resolvedDecimals c) = ip ++ "." ++ fp ∧
        fp.length = resolvedDecimals c ∧ '.' ∉ ip.data ∧ '.' ∉ fp.data) ∧
    formatCurrency 10 "JPY" = "¥10" ∧
    formatCurrency 10 "USD" = "$10.00" := by
  refine ⟨fun h0 => ?_, fun hne => ?_, ?_, ?_⟩
  · rw [formatCurrency_def, h0]
    split_ifs with hpos
    · intro hm
      simp only [String.data_append, List.mem_append] at hm
      rcases hm with (hm | hm) | hm
      · exact absurd (mem_signStr hm) (by decide)
      · exact dot_not_mem_resolvedSymbol c hm
      · exact dot_not_mem_toFixed_zero _ hm
    · intro hm
      simp only [String.data_append, List.mem_append] at hm
      rcases hm with ((hm | hm) | hm) | hm
      · exact absurd (mem_signStr hm) (by decide)
      · exact dot_not_mem_toFixed_zero _ hm
      · exact absurd hm (by decide)
      · exact dot_not_mem_resolvedSymbol c hm
  · obtain ⟨ip, fp, heq, hlen, hip, hfp, _⟩ := toFixed_split |a| hne
    exact ⟨ip, fp, heq, hlen, hip, hfp⟩
  · rw [formatCurrency_def, if_pos (by decide), show resolvedSymbol "JPY" = "¥" from rfl,
      show resolvedDecimals "JPY" = 0 from rfl, toFixed_eval _ _ 10 (by norm_num)]
    decide
  · rw [formatCurrency_def, if_pos (by decide), show resolvedSymbol "USD" = "$" from rfl,
      show resolvedDecimals "USD" = 2 from rfl, toFixed_eval _ _ 1000 (by norm_num)]
    decide

theorem claim_C5_witness :
    '.' ∉ (formatCurrency 10 "JPY").data ∧
    (∃ ip fp : String, toFixed |(10 : ℚ)| (resolvedDecimals "USD") = ip ++ "." ++ fp ∧
      fp.length = resolvedDecimals "USD" ∧ '.' ∉ ip.data ∧ '.' ∉ fp.data) :=
  ⟨(claim_C5 10 "JPY" (by norm_num)).1 (by decide),
    (claim_C5 10 "USD" (by norm_num)).2.1 (by decide)⟩

/-- A symbol with head character `hd` occurring nowhere else occurs exactly
once in a `before`-position rendering. -/
lemma count_one_before (a : ℚ) (sym : String) (d : Nat) {hd : Char} {tl : List Char}
    (hsym : sym.data = hd :: tl) (h1 : hd ≠ '-') (h2 : hd ∉ tl)
    (h3 : hd ∉ digitChars) (h4 : hd ≠ '.') :
    countOccs sym.data ((signStr a ++ sym ++ toFixed |a| d).data) = 1 := by
  have hsplit : (signStr a ++ sym ++ toFixed |a| d).data
      = (signStr a).data ++ ((hd :: tl) ++ (toFixed |a| d).data) := by
    simp [String.data_append, hsym]
  rw [hsym, hsplit]
  apply countOccs_sandwich
  · intro hm
    exact h1 (mem_signStr hm)
  · exact h2
  · exact not_mem_toFixed h3 h4 _ _

/-- The same for an `after`-position rendering. -/
lemma count_one_after (a : ℚ) (sym : String) (d : Nat) {hd : Char} {tl : List Char}
    (hsym : sym.data = hd :: tl) (h1 : hd ≠ '-') (h2 : hd ∉ tl)
    (h3 : hd ∉ digitChars) (h4 : hd ≠ '.') (h5 : hd ≠ ' ') :
    countOccs sym.data ((signStr a ++ toFixed |a| d ++ " " ++ sym).data) = 1 := by
  have hsplit : (signStr a ++ toFixed |a| d ++ " " ++ sym).data
      = ((signStr a).data ++ ((toFixed |a| d).data ++ [' '])) ++ ((hd :: tl) ++ []) := by
    simp [String.data_append, hsym, show (" " : String).data = [' '] from rfl]
  rw [hsym, hsplit]
  apply countOccs_sandwich
  · intro hm
    rcases List.mem_append.1 hm with hm | hm
    · exact h1 (mem_signStr hm)
    · rcases List.mem_append.1 hm with hm | hm
      · exact not_mem_toFixed h3 h4 _ _ hm
      · simp only [List.mem_singleton] at hm
        exact h5 hm
  · exact h2
  · simp

/-- C6: for every recognized currency code and every amount, the rendered
string contains the code's symbol as a substring exactly once. -/
theorem claim_C6 (c : String) (hc : c ∈ supportedCodes) (a : ℚ) :
    countOccs (getCurrencySymbol c).data (formatCurrency a c).data = 1 := by
  simp only [supportedCodes, List.mem_cons, List.not_mem_nil, or_false] at hc
  rcases hc with rfl | rfl | rfl | rfl | rfl | rfl | rfl | rfl | rfl | rfl | rfl | rfl
  · show countOccs ("$" : String).data ((signStr a ++ "$" ++ toFixed |a| 2).data) = 1
    exact count_one_before a "$" 2 rfl (by decide) (by decide) (by decide) (by decide)
  · show countOccs ("€" : String).data
      ((signStr a ++ toFixed |a| 2 ++ " " ++ "€").data) = 1
    exact count_one_after a "€" 2 rfl (by decide) (by decide) (by decide) (by decide) (by decide)
  · show countOccs ("£" : String).data ((signStr a ++ "£" ++ toFixed |a| 2).data) = 1
    exact count_one_before a "£" 2 rfl (by decide) (by decide) (by decide) (by decide)
  · show countOccs ("¥" : String).data ((signStr a ++ "¥" ++ toFixed |a| 0).data) = 1
    exact count_one_before a "¥" 0 rfl (by decide) (by decide) (by decide) (by decide)
  · show countOccs ("C$" : String).data ((signStr a ++ "C$" ++ toFixed |a| 2).data) = 1
    exact count_one_before a "C$" 2 rfl (by decide) (by decide) (by decide) (by decide)
  · show countOccs ("A$" : String).data ((signStr a ++ "A$" ++ toFixed |a| 2).data) = 1
    exact count_one_before a "A$" 2 rfl (by decide) (by decide) (by decide) (by decide)
  · show countOccs ("CHF" : String).data
      ((signStr a ++ toFixed |a| 2 ++ " " ++ "CHF").data) = 1
    exact count_one_after a "CHF" 2 rfl (by decide) (by decide) (by decide) (by decide)
      (by decide)
  · show countOccs ("¥" : String).data ((signStr a ++ "¥" ++ toFixed |a| 2).data) = 1
    exact count_one_before a "¥" 2 rfl (by decide) (by decide) (by decide) (by decide)
  · show countOccs ("₹" : String).data ((signStr a ++ "₹" ++ toFixed |a| 2).data) = 1
    exact count_one_before a "₹" 2 rfl (by decide) (by decide) (by decide) (by decide)
  · show countOccs ("$" : String).data ((signStr a ++ "$" ++ toFixed |a| 2).data) = 1
    exact count_one_before a "$" 2 rfl (by decide) (by decide) (by decide) (by decide)
  · show countOccs ("R$" : String).data ((signStr a ++ "R$" ++ toFixed |a| 2).data) = 1
    exact count_one_before a "R$" 2 rfl (by decide) (by decide) (by decide) (by decide)
  · show countOccs ("R" : String).data ((signStr a ++ "R" ++ toFixed |a| 2).data) = 1
    exact count_one_before a "R" 2 rfl (by decide) (by decide) (by decide) (by decide)

theorem claim_C6_witness :
    countOccs (getCurrencySymbol "JPY").data (formatCurrency 10 "JPY").data = 1 :=
  claim_C6 "JPY" (by decide) 10

/-- C7 (amended): `formatCurrency` never surfaces an error — the `Except`
embedding of its one potentially-throwing step (`toFixed`, whose digit
count is always the in-range table value 0 or 2, or the fallback 2)
always returns `ok` with exactly the string `formatCurrency` produces —
and `getCurrencySymbol` returns a string for every code that is not an
inherited `Object.prototype` member name; at such a name the program
returns the inherited member, a function, instead (see the
counterexample). -/
theorem claim_C7 (a : ℚ) (c : String) :
    formatCurrencyE a c = Except.ok (formatCurrency a c) ∧
    (c ∉ protoKeys → getCurrencySymbolJs c = JsProp.own (getCurrencySymbol c)) := by
  constructor
  · unfold formatCurrencyE toFixedE
    have h : ¬100 < (DECIMAL_PLACES c).getD 2 := Nat.not_lt.2 (resolvedDecimals_le c)
    rw [if_neg h]
    rfl
  · exact fun hproto => getCurrencySymbolJs_eq hproto

/-- C7 counterexample to the unamended claim: at the inherited key
`"toString"` the lookup finds `Object.prototype.toString` itself, so
`getCurrencySymbol` does not return a string there. -/
theorem claim_C7_counterexample :
    (getCurrencySymbolJs "toString").isString = false ∧
    getCurrencySymbolJs "toString" = JsProp.protoMember "toString" := by
  decide

theorem claim_C7_witness :
    formatCurrencyE 2 "ZZZ" = Except.ok (formatCurrency 2 "ZZZ") ∧
    getCurrencySymbolJs "ZZZ" = JsProp.own (getCurrencySymbol "ZZZ") :=
  ⟨(claim_C7 2 "ZZZ").1, (claim_C7 2 "ZZZ").2 (by decide)⟩

/-- C8: formatting a zero amount never produces a `-` sign. -/
theorem claim_C8 (c : String) : '-' ∉ (formatCurrency 0 c).data := by
  rw [formatCurrency_def, signStr_nonneg (by norm_num)]
  split_ifs with h
  · intro hm
    simp only [String.data_append, show ("" : String).data = [] from rfl,
      List.nil_append, List.mem_append] at hm
    rcases hm with hm | hm
    · exact dash_not_mem_resolvedSymbol c hm
    · exact not_mem_toFixed (by decide) (by decide) _ _ hm
  · intro hm
    simp only [String.data_append, show ("" : String).data = [] from rfl,
      List.nil_append, List.mem_append] at hm
    rcases hm with (hm | hm) | hm
    · exact not_mem_toFixed (by decide) (by decide) _ _ hm
    · exact absurd hm (by decide)
    · exact dash_not_mem_resolvedSymbol c hm

/-- C9: the sign is decided by the raw input amount, not the rounded
numeral: every strictly negative amount renders with a leading `-`, and a
negative amount whose absolute value rounds to zero at USD's two decimals
renders as `-$0.00`. -/
theorem claim_C9 :
    (∀ (a : ℚ) (c : String), a < 0 → (formatCurrency a c).data.head? = some '-') ∧
    (∀ a : ℚ, a < 0 → ⌊|a| * 10 ^ 2 + 1 / 2⌋ = 0 → formatCurrency a "USD" = "-$0.00") := by
  constructor
  · intro a c ha
    rw [formatCurrency_def, signStr_neg ha]
    split_ifs with h
    · simp [String.data_append, show ("-" : String).data = ['-'] from rfl]
    · simp [String.data_append, show ("-" : String).data = ['-'] from rfl]
  · intro a ha h0
    rw [formatCurrency_def, if_pos (by decide), signStr_neg ha,
      show resolvedSymbol "USD" = "$" from rfl, show resolvedDecimals "USD" = 2 from rfl,
      toFixed_eval _ _ 0 (by exact_mod_cast h0)]
    decide

theorem claim_C9_witness :
    (formatCurrency (-1) "EUR").data.head? = some '-' ∧
    formatCurrency (-(1 / 1000)) "USD" = "-$0.00" :=
  ⟨claim_C9.1 (-1) "EUR" (by norm_num),
    claim_C9.2 (-(1 / 1000)) (by norm_num)
      (by rw [abs_neg, abs_of_pos (by norm_num : (0 : ℚ) < 1 / 1000)]; norm_num)⟩

/-- C10: omitting the currency-code argument defaults both operations to
USD. -/
theorem claim_C10 :
    (∀ a : ℚ, formatCurrency a = formatCurrency a "USD") ∧
    (getCurrencySymbol : String) = getCurrencySymbol "USD" :=
  ⟨fun _ => rfl, rfl⟩

/-- C1 (divergence record): the IEEE-754 double denoted by the literal
`1.005` is `4526117625507348 / 2^52`, which is strictly below the exact
value `1.005`; `toFixed` rounds the exact stored value, so the program
prints `$1.00` there, while half-away-from-zero rounding of the exact
decimal `1.005` — what the specified rule demands for
`formatCurrency(1.005, "USD")` — yields `$1.01`. -/
theorem claim_C1 :
    formatCurrency (4526117625507348 / 4503599627370496 : ℚ) "USD" = "$1.00" ∧
    formatCurrency (1005 / 1000 : ℚ) "USD" = "$1.01" := by
  constructor
  · have habs : |(4526117625507348 / 4503599627370496 : ℚ)|
        = 4526117625507348 / 4503599627370496 := abs_of_pos (by norm_num)
    rw [formatCurrency_def, if_pos (by decide), signStr_nonneg (by norm_num),
      show resolvedSymbol "USD" = "$" from rfl, show resolvedDecimals "USD" = 2 from rfl,
      toFixed_eval _ _ 100 (by rw [habs]; norm_num)]
    decide
  · have habs : |(1005 / 1000 : ℚ)| = 1005 / 1000 := abs_of_pos (by norm_num)
    rw [formatCurrency_def, if_pos (by decide), signStr_nonneg (by norm_num),
      show resolvedSymbol "USD" = "$" from rfl, show resolvedDecimals "USD" = 2 from rfl,
      toFixed_eval _ _ 101 (by rw [habs]; norm_num)]
    decide
